import Mathlib

/-!
Shallow embedding of `src/Optimization/task_v2.js` (a small CSV → table →
renderer pipeline).  JavaScript numbers are modelled as an inductive type
with `NaN`, the two infinities and finite rationals (the programme only
performs exact arithmetic on small integers, so `ℚ` is an adequate carrier;
IEEE rounding and negative zero are not modelled).  Cell values are either
strings, numbers or `undefined` (the result of an out-of-range array read).
-/

/-- Model of a JavaScript number: `NaN`, `-Infinity`, `+Infinity` or a
finite value (carried as a rational). -/
inductive JsNum where
  | nan
  | negInf
  | posInf
  | fin (q : ℚ)
deriving DecidableEq, Repr

/-- Model of a JavaScript value as it occurs in this programme's cells:
a string, a number, or `undefined`. -/
inductive Value where
  | str (s : String)
  | num (j : JsNum)
  | undefined
deriving DecidableEq, Repr

/-- Unary minus on JS numbers. -/
def jsNeg : JsNum → JsNum
  | .nan => .nan
  | .negInf => .posInf
  | .posInf => .negInf
  | .fin q => .fin (-q)

/-- JS binary `-` on numbers (`NaN` absorbing, `Infinity - Infinity = NaN`). -/
def jsSub : JsNum → JsNum → JsNum
  | .nan, _ => .nan
  | _, .nan => .nan
  | .fin a, .fin b => .fin (a - b)
  | .fin _, .posInf => .negInf
  | .fin _, .negInf => .posInf
  | .posInf, .posInf => .nan
  | .posInf, .fin _ => .posInf
  | .posInf, .negInf => .posInf
  | .negInf, .negInf => .nan
  | .negInf, .fin _ => .negInf
  | .negInf, .posInf => .negInf

/-- JS binary `*` on numbers (`NaN` absorbing, `Infinity * 0 = NaN`). -/
def jsMul : JsNum → JsNum → JsNum
  | .nan, _ => .nan
  | _, .nan => .nan
  | .fin a, .fin b => .fin (a * b)
  | .fin a, .posInf => if 0 < a then .posInf else if a < 0 then .negInf else .nan
  | .fin a, .negInf => if 0 < a then .negInf else if a < 0 then .posInf else .nan
  | .posInf, .fin b => if 0 < b then .posInf else if b < 0 then .negInf else .nan
  | .negInf, .fin b => if 0 < b then .negInf else if b < 0 then .posInf else .nan
  | .posInf, .posInf => .posInf
  | .posInf, .negInf => .negInf
  | .negInf, .posInf => .negInf
  | .negInf, .negInf => .posInf

/-- JS binary `/` on numbers (division by zero yields an infinity, `0/0` and
`Infinity/Infinity` yield `NaN`; negative zero is not modelled). -/
def jsDiv : JsNum → JsNum → JsNum
  | .nan, _ => .nan
  | _, .nan => .nan
  | .fin a, .fin b =>
      if b = 0 then (if a = 0 then .nan else if 0 < a then .posInf else .negInf)
      else .fin (a / b)
  | .fin _, .posInf => .fin 0
  | .fin _, .negInf => .fin 0
  | .posInf, .fin b => if 0 ≤ b then .posInf else .negInf
  | .negInf, .fin b => if 0 ≤ b then .negInf else .posInf
  | .posInf, .posInf => .nan
  | .posInf, .negInf => .nan
  | .negInf, .posInf => .nan
  | .negInf, .negInf => .nan

/-- `Math.round`: round half towards positive infinity; fixed on `NaN` and
the infinities. -/
def jsRound : JsNum → JsNum
  | .fin q => .fin ((Int.floor (q + 1/2) : ℤ) : ℚ)
  | x => x

/-- Two-argument core of `Math.max`: `NaN` absorbing, otherwise the larger
value in the order `-Infinity < finite < +Infinity`. -/
def jsMax : JsNum → JsNum → JsNum
  | .nan, _ => .nan
  | _, .nan => .nan
  | .negInf, b => b
  | a, .negInf => a
  | .posInf, _ => .posInf
  | _, .posInf => .posInf
  | .fin a, .fin b => .fin (max a b)

/-- `Math.max(...values)`: fold of `jsMax` starting from `-Infinity`
(so the empty argument list yields `-Infinity`). -/
def jsMathMax (values : List JsNum) : JsNum := values.foldl jsMax .negInf

/-- JS `<=` on numbers: `false` whenever `NaN` is involved. -/
def jsLe : JsNum → JsNum → Bool
  | .nan, _ => false
  | _, .nan => false
  | .negInf, _ => true
  | _, .posInf => true
  | .fin a, .fin b => decide (a ≤ b)
  | .posInf, .negInf => false
  | .posInf, .fin _ => false
  | .fin _, .negInf => false

/-- JS `> 0` test on numbers (`false` on `NaN` and `-Infinity`). -/
def jsPos : JsNum → Bool
  | .posInf => true
  | .fin q => decide (0 < q)
  | _ => false

/-- Reads a run of decimal digits, failing on any non-digit character. -/
def parseNatDigits : List Char → ℕ → Option ℕ
  | [], acc => some acc
  | c :: rest, acc =>
      if c.isDigit then parseNatDigits rest (10 * acc + (c.toNat - 48)) else none

/-- Reads an unsigned decimal literal (digits with an optional fractional
part), as accepted by JS `Number`; exponents are not modelled. -/
def parseDecimal (cs : List Char) : Option ℚ :=
  match cs.span (fun c => c != '.') with
  | (intPart, []) =>
      if intPart = [] then none
      else (parseNatDigits intPart 0).map (fun n => (n : ℚ))
  | (intPart, _ :: fracPart) =>
      if intPart = [] ∧ fracPart = [] then none
      else
        match parseNatDigits intPart 0, parseNatDigits fracPart 0 with
        | some i, some f => some ((i : ℚ) + (f : ℚ) / (10 : ℚ) ^ fracPart.length)
        | _, _ => none

/-- Unsigned body of JS `Number(string)` after the optional sign. -/
def strBodyToNumber (cs : List Char) : JsNum :=
  if cs = "Infinity".data then .posInf
  else
    match parseDecimal cs with
    | some q => .fin q
    | none => .nan

/-- JS `String.prototype.trim`: strips whitespace from both ends
(implemented structurally on the character list so that it evaluates by
kernel reduction). -/
def jsTrim (s : String) : String :=
  String.mk (((s.data.dropWhile Char.isWhitespace).reverse.dropWhile
    Char.isWhitespace).reverse)

/-- JS `Number(string)`: trims whitespace, the empty string is `0`, an
optionally signed decimal literal or `Infinity` parses, anything else is
`NaN` (hexadecimal and exponent forms are not modelled; the repository's
data never uses them). -/
def strToNumber (s : String) : JsNum :=
  let t := jsTrim s
  if t = "" then .fin 0
  else
    match t.data with
    | '-' :: rest => jsNeg (strBodyToNumber rest)
    | '+' :: rest => strBodyToNumber rest
    | cs => strBodyToNumber cs

/-- JS `Number(value)` coercion for the value shapes this programme
produces: numbers are fixed, strings are parsed, `undefined` is `NaN`. -/
def toNumber : Value → JsNum
  | .num j => j
  | .str s => strToNumber s
  | .undefined => .nan

/-- `Array.prototype.indexOf`: the index of the first occurrence, or the
`-1` sentinel when absent. -/
def jsIndexOf (l : List String) (x : String) : Int :=
  match l.findIdx? (fun c => c == x) with
  | some n => (n : Int)
  | none => -1

/-- JS array read `row[i]` with a possibly negative or out-of-range index:
any miss yields `undefined`. -/
def jsGet (row : List Value) (i : Int) : Value :=
  if 0 ≤ i then row.getD i.toNat .undefined else .undefined

/-- Core of `String.prototype.split` on a one-character separator
(the programme only splits on `'\n'` and `','`): structural recursion over
the character list.  The empty input yields one empty field, as in JS. -/
def jsSplitChar (sep : Char) : List Char → List (List Char)
  | [] => [[]]
  | c :: rest =>
      let r := jsSplitChar sep rest
      if c = sep then [] :: r
      else
        match r with
        | [] => [[c]]
        | h :: t => (c :: h) :: t

/-- JS `s.split(sep)` for a one-character separator. -/
def jsSplit (s : String) (sep : Char) : List String :=
  (jsSplitChar sep s.data).map String.mk

/-!
Sorting.  `Array.prototype.sort(compare)` is modelled as a stable insertion
sort driven by the boolean test "the comparator does not demand a swap",
i.e. an element `a` may stay before `b` iff `compare a b > 0` is false.
-/

/-- Inserts `x` in front of the first element `y` with `le x y`. -/
def insertLe {α : Type} (le : α → α → Bool) (x : α) : List α → List α
  | [] => [x]
  | y :: ys => if le x y then x :: y :: ys else y :: insertLe le x ys

/-- Stable insertion sort with respect to the boolean relation `le`. -/
def jsSort {α : Type} (le : α → α → Bool) : List α → List α
  | [] => []
  | x :: xs => insertLe le x (jsSort le xs)

/-- The "may stay before" relation induced by a JS comparator: `a` may stay
before `b` iff `compare a b` is not a positive number. -/
def jsSortLe {α : Type} (compare : α → α → JsNum) (a b : α) : Bool :=
  !(jsPos (compare a b))

/-!
`ParserCsv`: splits the raw text on the line separator, the first line is
the header, every other line is split on the cell separator.  `lineSep` and
`cellSep` default to `"\n"` and `","` in the source; callers here pass them
explicitly.  A cell transformer receives the cell value and the header name
at the cell's index (`none` models the `undefined` the JS code produces when
the row is longer than the header).
-/

/-- Cell-level transform `(value, columnName) -> value`. -/
abbrev CellTransformer := Value → Option String → Value

/-- Row-level transform `(rowValues, columns) -> rowValues`. -/
abbrev RowTransformer := List Value → List String → List Value

/-- State of a `ParserCsv` instance after its constructor ran. -/
structure ParserCsv where
  columns : List String
  lines : List String
  cellSep : Char

/-- The `ParserCsv` constructor: header line then data lines (`split`
never returns an empty list, so the first branch is unreachable). -/
def ParserCsv.construct (csv : String) (lineSep : Char) (cellSep : Char) :
    ParserCsv :=
  match jsSplit csv lineSep with
  | [] => ⟨[], [], cellSep⟩
  | headerLine :: lines => ⟨jsSplit headerLine cellSep, lines, cellSep⟩

/-- `getColumns()`. -/
def ParserCsv.getColumns (p : ParserCsv) : List String := p.columns

/-- `ParserCsv.cellWithTypes(types)`: returns a cell transformer that
applies the cast registered for the cell's column, if any, and otherwise
passes the value through. -/
def ParserCsv.cellWithTypes (types : List (String × (Value → Value))) :
    CellTransformer :=
  fun value column =>
    match column.bind (fun c => types.lookup c) with
    | some cast => cast value
    | none => value

/-- `toDatasetArray({cellTransformers, rowTransformers})`: splits each data
line, pipes every cell through the cell transformers (with the header name
at its index), then pipes the whole row through the row transformers. -/
def ParserCsv.toDatasetArray (p : ParserCsv) (cellTransformers : List CellTransformer)
    (rowTransformers : List RowTransformer) : List (List Value) :=
  p.lines.map (fun rawLine =>
    let values := (jsSplit rawLine p.cellSep).enum.map (fun pair =>
      cellTransformers.foldl (fun result strategy => strategy result (p.columns.get? pair.1))
        (Value.str pair.2))
    rowTransformers.foldl (fun result strategy => strategy result p.columns) values)

/-!
`TableData`: the value-level model.  The JS constructor defensively copies
the column array and every row array; on immutable Lean values that copy is
the identity, so a table is just the pair of its field contents.  (The
aliasing-sensitive part of the design — that producing a derived table never
mutates the original — is modelled separately by the store semantics below.)
-/

/-- Field contents of a `TableData` instance. -/
structure TableData where
  columns : List String
  rows : List (List Value)
deriving Repr

/-- Signature of an `addColumn` compute callback:
`(row, columns, allRows) -> value`. -/
abbrev ComputeFn := List Value → List String → List (List Value) → Value

/-- Private `#indexOf`: position of the column name, `-1` when absent. -/
def TableData.indexOf (t : TableData) (column : String) : Int :=
  jsIndexOf t.columns column

/-- `maxBy(column)`: `Math.max(...rows.map(row => Number(row[index])))`. -/
def TableData.maxBy (t : TableData) (column : String) : JsNum :=
  let index := t.indexOf column
  jsMathMax (t.rows.map (fun row => toNumber (jsGet row index)))

/-- `addColumn(name, compute)`: appends `name` to the columns and, to every
row, the value of `compute(row, columns, rows)` over the pre-append state. -/
def TableData.addColumn (t : TableData) (name : String) (compute : ComputeFn) :
    TableData :=
  let columns := t.columns ++ [name]
  let rows := t.rows.map (fun row => row ++ [compute row t.columns t.rows])
  ⟨columns, rows⟩

/-- The comparator `sortBy` builds: numeric subtraction of the cells at the
column's index, flipped for `'desc'`. -/
def TableData.sortCompare (colIndex : Int) (order : String)
    (a b : List Value) : JsNum :=
  if order = "desc"
  then jsSub (toNumber (jsGet b colIndex)) (toNumber (jsGet a colIndex))
  else jsSub (toNumber (jsGet a colIndex)) (toNumber (jsGet b colIndex))

/-- `sortBy(column, order)`: sorts a copy of the rows with the comparator
above (the JS default for `order` is `'desc'`; callers here pass it
explicitly). -/
def TableData.sortBy (t : TableData) (column : String) (order : String) :
    TableData :=
  let colIndex := t.indexOf column
  ⟨t.columns, jsSort (jsSortLe (TableData.sortCompare colIndex order)) t.rows⟩

/-- `getColumns()`: a defensive copy; on values, the contents themselves. -/
def TableData.getColumns (t : TableData) : List String := t.columns

/-- `getRows()`: a defensive copy; on values, the contents themselves. -/
def TableData.getRows (t : TableData) : List (List Value) := t.rows

/-!
`RendererTable`: fixed-width formatting.  `console.log` output is modelled
by returning the list of rendered lines.  `String(cell)` is modelled for
the value shapes the pipeline produces (integral numbers, strings,
`undefined`); a non-integral rational falls back to its Lean notation,
which no claim depends on.
-/

/-- One entry of the renderer's `columns` option; a missing `width` or
`align` field is `none`. -/
structure ColumnOpt where
  width : Option Nat
  align : Option String

/-- Renderer configuration (`FORMAT_OPTIONS`-shaped). -/
structure FormatOptions where
  columns : List ColumnOpt

/-- JS `String(cell)` for this programme's cell values. -/
def jsToString : Value → String
  | .str s => s
  | .undefined => "undefined"
  | .num .nan => "NaN"
  | .num .posInf => "Infinity"
  | .num .negInf => "-Infinity"
  | .num (.fin q) => if q.den = 1 then toString q.num else toString q

/-- `padStart`/`padEnd` with spaces; `none` width (JS `undefined`) pads to
length 0, i.e. leaves the string unchanged. -/
def jsPad (s : String) (w : Option Nat) (atEnd : Bool) : String :=
  match w with
  | none => s
  | some width =>
      if width ≤ s.length then s
      else
        let fill := String.mk (List.replicate (width - s.length) ' ')
        if atEnd then s ++ fill else fill ++ s

/-- `#formatCell`: looks up the column options at the cell's index
(`?? {}` on a miss), aligns left with `padEnd` and otherwise right with
`padStart`. -/
def RendererTable.formatCell (opts : FormatOptions) (cell : Value) (index : ℕ) :
    String :=
  let co := opts.columns.getD index ⟨none, none⟩
  let align := co.align.getD "right"
  if align = "left" then jsPad (jsToString cell) co.width true
  else jsPad (jsToString cell) co.width false

/-- `#formatRow`: formats every cell and joins them with no separator. -/
def RendererTable.formatRow (opts : FormatOptions) (row : List Value) : String :=
  String.join (row.enum.map (fun pair => RendererTable.formatCell opts pair.2 pair.1))

/-- `render(rows)`: one output line per row. -/
def RendererTable.render (opts : FormatOptions) (rows : List (List Value)) :
    List String :=
  rows.map (RendererTable.formatRow opts)

/-!
The `App` orchestrator.  The parser and renderer registries map format
names to constructors; an entry is modelled as a function from the
constructor's argument to the object's observable interface.
-/

/-- Interface of a constructed parser object. -/
structure ParserObj where
  getColumns : List String
  toDatasetArray : List CellTransformer → List RowTransformer → List (List Value)

/-- Interface of a constructed renderer object: `render` returns the lines
written to the output sink. -/
structure RendererObj where
  render : List (List Value) → List String

/-- `ParserCsv` as a registry entry (the JS `new Parser(data)` with the
default separators). -/
def ParserCsv.factory (data : String) : ParserObj :=
  let p := ParserCsv.construct data '\n' ','
  ⟨p.getColumns, fun ct rt => p.toDatasetArray ct rt⟩

/-- `RendererTable` as a registry entry (the JS `new Renderer(options)`). -/
def RendererTable.factory (opts : FormatOptions) : RendererObj :=
  ⟨RendererTable.render opts⟩

/-- Field contents of an `App` instance. -/
structure App where
  data : String
  inputFormat : String
  outputFormat : String
  parsers : List (String × (String → ParserObj))
  renderers : List (String × (FormatOptions → RendererObj))
  dataSchema : List (String × (Value → Value))
  formatOptions : FormatOptions

/-- `App.run()`: resolves the parser and renderer (throwing on an
unregistered format name), parses and schema-casts the data, builds the
table, appends the `percent` column from the `density` maximum, sorts by
`percent` (the JS call uses `sortBy`'s default order `'desc'`), and renders
the final rows.  A thrown `Error` is an `Except.error` carrying the
message; the returned lines are the render output. -/
def App.run (app : App) : Except String (List String) :=
  match app.parsers.lookup app.inputFormat with
  | none =>
      Except.error ("No parser registered for input format: \"" ++ app.inputFormat ++ "\"")
  | some parserCtor =>
    match app.renderers.lookup app.outputFormat with
    | none =>
        Except.error ("No renderer registered for output format: \"" ++ app.outputFormat ++ "\"")
    | some rendererCtor =>
      let parser := parserCtor app.data
      let renderer := rendererCtor app.formatOptions
      let columns := parser.getColumns
      let rows := parser.toDatasetArray [ParserCsv.cellWithTypes app.dataSchema] []
      let table : TableData := ⟨columns, rows⟩
      let maxDensity := table.maxBy "density"
      let result := (table.addColumn "percent" (fun row columns _ =>
          Value.num (jsRound (jsDiv
            (jsMul (toNumber (jsGet row (jsIndexOf columns "density"))) (JsNum.fin 100))
            maxDensity)))).sortBy "percent" "desc"
      Except.ok (renderer.render result.getRows)

/-- The transformation pipeline as the specification words it: compute
`maxDensity = table.maxBy('density')`, append a `percent` column whose
value is `round(densityCell * 100 / maxDensity)`, sort by `percent`
descending.  Stated separately so the claim about `App.run` can equate the
orchestrator with this pipeline. -/
def pipelineSpecTable (columns : List String) (rows : List (List Value)) :
    TableData :=
  let table : TableData := ⟨columns, rows⟩
  let maxDensity := table.maxBy "density"
  (table.addColumn "percent" (fun row columns _ =>
      Value.num (jsRound (jsDiv
        (jsMul (toNumber (jsGet row (jsIndexOf columns "density"))) (JsNum.fin 100))
        maxDensity)))).sortBy "percent" "desc"

/-- One `TableData` transformation, for stating the row-length invariant
over arbitrary operation sequences. -/
inductive TableOp where
  | addCol (name : String) (compute : ComputeFn)
  | sortOp (column : String) (order : String)

/-- Applies one operation. -/
def applyOp (t : TableData) : TableOp → TableData
  | .addCol n f => t.addColumn n f
  | .sortOp c o => t.sortBy c o

/-- Applies a sequence of operations left to right. -/
def applyOps (t : TableData) : List TableOp → TableData
  | [] => t
  | op :: rest => applyOps (applyOp t op) rest

/-- The row-length invariant: every row is exactly as long as the column
set. -/
def TableData.Wf (t : TableData) : Prop :=
  ∀ row ∈ t.rows, row.length = t.columns.length

/-- The demo parser registry of the repository. -/
def demoParsers : List (String × (String → ParserObj)) := [("csv", ParserCsv.factory)]

/-- The demo renderer registry of the repository. -/
def demoRenderers : List (String × (FormatOptions → RendererObj)) :=
  [("table", RendererTable.factory)]

/-!
Store semantics for `TableData`.  To state immutability (producing a
derived table leaves the original observable state untouched) the JS arrays
are modelled as heap objects addressed by natural numbers: a table instance
holds the address of its `#columns` string array and of its `#rows` array
of row references.  `addColumn`/`sortBy` are re-read off the source at this
level: they allocate the intermediate arrays, `sortBy` sorts its fresh copy
in place (a genuine store write), and the `TableData` constructor copies
its two arguments into fresh objects.  The compute callback is the same
pure `ComputeFn` as in the value model — the JS code hands it live internal
references, and the design (spec §4.1) requires it to be pure, i.e. to only
read them.
-/

/-- A heap object: an array of strings, of cell values, or of references. -/
inductive HeapObj where
  | strArr (elems : List String)
  | valArr (elems : List Value)
  | refArr (elems : List ℕ)

/-- The heap: object `a` lives at index `a` of `objs`. -/
structure Store where
  objs : List HeapObj

/-- Reads the object at an address. -/
def Store.read (s : Store) (a : ℕ) : Option HeapObj := s.objs.get? a

/-- Allocates a fresh object, returning its address. -/
def Store.alloc (s : Store) (o : HeapObj) : ℕ × Store :=
  (s.objs.length, ⟨s.objs ++ [o]⟩)

/-- Overwrites the object at an address (in-place array mutation). -/
def Store.write (s : Store) (a : ℕ) (o : HeapObj) : Store := ⟨s.objs.set a o⟩

/-- Dereferences a string array (defaulting to `[]` on a shape miss, which
well-formedness rules out). -/
def Store.readStrArr (s : Store) (a : ℕ) : List String :=
  match s.read a with
  | some (.strArr l) => l
  | _ => []

/-- Dereferences a value array. -/
def Store.readValArr (s : Store) (a : ℕ) : List Value :=
  match s.read a with
  | some (.valArr l) => l
  | _ => []

/-- Dereferences a reference array. -/
def Store.readRefArr (s : Store) (a : ℕ) : List ℕ :=
  match s.read a with
  | some (.refArr l) => l
  | _ => []

/-- Allocates one value array per row, returning the addresses in order. -/
def Store.allocRows (s : Store) : List (List Value) → List ℕ × Store
  | [] => ([], s)
  | r :: rest =>
      let p1 := s.alloc (.valArr r)
      let p2 := p1.2.allocRows rest
      (p1.1 :: p2.1, p2.2)

/-- A table instance: the addresses of its `#columns` and `#rows` arrays. -/
structure TableRef where
  columnsA : ℕ
  rowsA : ℕ

/-- The `TableData` constructor at store level: dereferences the two
argument arrays and stores fresh copies (`[...columns]`,
`rows.map(row => [...row])`). -/
def TableData.constructSt (s : Store) (colsArg rowsArg : ℕ) : TableRef × Store :=
  let cols := s.readStrArr colsArg
  let rowContents := (s.readRefArr rowsArg).map s.readValArr
  let p1 := s.alloc (.strArr cols)
  let p2 := p1.2.allocRows rowContents
  let p3 := p2.2.alloc (.refArr p2.1)
  (⟨p1.1, p3.1⟩, p3.2)

/-- Observable value of `getColumns()` (the getter's defensive copy has
these contents). -/
def TableRef.getColumnsV (t : TableRef) (s : Store) : List String :=
  s.readStrArr t.columnsA

/-- Observable value of `getRows()`. -/
def TableRef.getRowsV (t : TableRef) (s : Store) : List (List Value) :=
  (s.readRefArr t.rowsA).map s.readValArr

/-- `addColumn` at store level: builds the extended column array and the
extended row arrays as fresh objects, then runs the copying constructor. -/
def TableRef.addColumnSt (t : TableRef) (s : Store) (name : String)
    (compute : ComputeFn) : TableRef × Store :=
  let cols := s.readStrArr t.columnsA
  let allRows := (s.readRefArr t.rowsA).map s.readValArr
  let newRows := allRows.map (fun row => row ++ [compute row cols allRows])
  let p1 := s.alloc (.strArr (cols ++ [name]))
  let p2 := p1.2.allocRows newRows
  let p3 := p2.2.alloc (.refArr p2.1)
  TableData.constructSt p3.2 p1.1 p3.1

/-- `sortBy` at store level: copies the row-reference array
(`[...this.#rows]`), sorts the copy in place — a store write — comparing
rows through their references, then runs the copying constructor on
`this.#columns` and the sorted copy. -/
def TableRef.sortBySt (t : TableRef) (s : Store) (column : String)
    (order : String) : TableRef × Store :=
  let cols := s.readStrArr t.columnsA
  let colIndex := jsIndexOf cols column
  let compare := fun (a b : ℕ) =>
    TableData.sortCompare colIndex order (s.readValArr a) (s.readValArr b)
  let rowAddrs := s.readRefArr t.rowsA
  let p1 := s.alloc (.refArr rowAddrs)
  let s2 := p1.2.write p1.1 (.refArr (jsSort (jsSortLe compare) rowAddrs))
  TableData.constructSt s2 t.columnsA p1.1

/-- Well-formedness of a table instance in a store: its two field addresses
and every row reference are live. -/
def TableWfSt (t : TableRef) (s : Store) : Prop :=
  t.columnsA < s.objs.length ∧ t.rowsA < s.objs.length ∧
    ∀ r ∈ s.readRefArr t.rowsA, r < s.objs.length

/-- `s'` preserves `s`: it is at least as large and reads identically at
every address live in `s`. -/
def Store.Preserves (s s' : Store) : Prop :=
  s.objs.length ≤ s'.objs.length ∧ ∀ a, a < s.objs.length → s'.read a = s.read a

/-- JS `Number` as a schema cast function. -/
def castNumber : Value → Value := fun v => Value.num (toNumber v)

/-- A small two-column CSV used for concrete checks. -/
def tinyCsv : String := "city,density\nA,100\nB,400\nC,200"

/-- Schema casting the `density` column to numbers. -/
def tinySchema : List (String × (Value → Value)) := [("density", castNumber)]

/-- A small renderer configuration. -/
def tinyFormatOptions : FormatOptions :=
  ⟨[⟨some 8, some "left"⟩, ⟨some 8, none⟩, ⟨some 6, none⟩]⟩

/-- A fully wired demo `App` over the small CSV. -/
def tinyApp : App :=
  { data := tinyCsv, inputFormat := "csv", outputFormat := "table",
    parsers := demoParsers, renderers := demoRenderers,
    dataSchema := tinySchema, formatOptions := tinyFormatOptions }

/-- The demo `App` with an unregistered input format name. -/
def xmlApp : App := { tinyApp with inputFormat := "xml" }

/-- The schema of the specification's casting scenario: column `b` is cast
with `Number`. -/
def schemaBNum : List (String × (Value → Value)) := [("b", castNumber)]

/-- A concrete store holding one table (columns at 0, a row at 1, the row
array at 2). -/
def tinyStore : Store := ⟨[.strArr ["a"], .valArr [.str "x"], .refArr [1]]⟩

/-- The table instance living in `tinyStore`. -/
def tinyTableRef : TableRef := ⟨0, 2⟩

/-- The specification's ranking-scenario table: columns
`['city','density']`, three numeric density cells. -/
def scenTable : TableData :=
  ⟨["city", "density"],
   [[.str "A", .num (.fin 100)], [.str "B", .num (.fin 400)],
    [.str "C", .num (.fin 200)]]⟩

/-!
General lemmas.  The totality/transitivity hypotheses of the sortedness
lemma are local to the list being sorted, because the comparator relation
is not transitive on all of `JsNum` (`NaN` breaks it) — it is transitive on
the numeric rows the sort-correctness claim quantifies over.
-/

/-- Inserting is a permutation of consing. -/
theorem insertLe_perm {α : Type} (le : α → α → Bool) (x : α) :
    ∀ l : List α, (insertLe le x l).Perm (x :: l)
  | [] => List.Perm.refl _
  | y :: ys => by
      by_cases h : le x y = true
      · simp [insertLe, h]
      · rw [insertLe, if_neg h]
        exact ((insertLe_perm le x ys).cons y).trans (List.Perm.swap x y ys)

/-- The sort is a permutation of its input. -/
theorem jsSort_perm {α : Type} (le : α → α → Bool) :
    ∀ l : List α, (jsSort le l).Perm l
  | [] => List.Perm.refl _
  | x :: xs => (insertLe_perm le x (jsSort le xs)).trans ((jsSort_perm le xs).cons x)

/-- Inserting into a `le`-pairwise list keeps it pairwise, given totality
between `x` and the list and transitivity out of `x` over the list. -/
theorem pairwise_insertLe {α : Type} (le : α → α → Bool) (x : α) :
    ∀ l : List α,
      (∀ y ∈ l, le x y = true ∨ le y x = true) →
      (∀ b c, b ∈ l → c ∈ l → le x b = true → le b c = true → le x c = true) →
      l.Pairwise (fun a b => le a b = true) →
      (insertLe le x l).Pairwise (fun a b => le a b = true)
  | [], _, _, _ => by simp [insertLe]
  | y :: ys, htot, htrans, hp => by
      rw [insertLe]
      rcases List.pairwise_cons.mp hp with ⟨hy, hys⟩
      by_cases h : le x y = true
      · rw [if_pos h]
        refine List.Pairwise.cons ?_ hp
        intro z hz
        rcases List.mem_cons.mp hz with rfl | hz'
        · exact h
        · exact htrans y z (List.mem_cons_self y ys) (List.mem_cons_of_mem y hz') h
            (hy z hz')
      · rw [if_neg h]
        refine List.Pairwise.cons ?_ (pairwise_insertLe le x ys ?_ ?_ hys)
        · intro z hz
          rcases List.mem_cons.mp ((insertLe_perm le x ys).mem_iff.mp hz) with hzx | hz'
          · subst hzx
            rcases htot y (List.mem_cons_self y ys) with h1 | h1
            · exact absurd h1 h
            · exact h1
          · exact hy z hz'
        · intro z hz
          exact htot z (List.mem_cons_of_mem y hz)
        · intro b c hb hc
          exact htrans b c (List.mem_cons_of_mem y hb) (List.mem_cons_of_mem y hc)

/-- The sort is pairwise `le`, given totality and transitivity on the
input list's elements. -/
theorem pairwise_jsSort {α : Type} (le : α → α → Bool) :
    ∀ l : List α,
      (∀ a ∈ l, ∀ b ∈ l, le a b = true ∨ le b a = true) →
      (∀ a b c, a ∈ l → b ∈ l → c ∈ l →
        le a b = true → le b c = true → le a c = true) →
      (jsSort le l).Pairwise (fun a b => le a b = true)
  | [], _, _ => by simp [jsSort]
  | x :: xs, htot, htrans => by
      rw [jsSort]
      have hmem : ∀ z ∈ jsSort le xs, z ∈ xs :=
        fun z hz => (jsSort_perm le xs).mem_iff.mp hz
      refine pairwise_insertLe le x (jsSort le xs) ?_ ?_ ?_
      · intro y hy
        exact htot x (List.mem_cons_self x xs) y (List.mem_cons_of_mem x (hmem y hy))
      · intro b c hb hc hxb hbc
        exact htrans x b c (List.mem_cons_self x xs)
          (List.mem_cons_of_mem x (hmem b hb)) (List.mem_cons_of_mem x (hmem c hc))
          hxb hbc
      · exact pairwise_jsSort le xs
          (fun a ha b hb =>
            htot a (List.mem_cons_of_mem x ha) b (List.mem_cons_of_mem x hb))
          (fun a b c ha hb hc =>
            htrans a b c (List.mem_cons_of_mem x ha) (List.mem_cons_of_mem x hb)
              (List.mem_cons_of_mem x hc))

/-- `NaN` absorbs the whole of a `Math.max` fold. -/
theorem foldl_jsMax_nan : ∀ l : List JsNum, l.foldl jsMax .nan = .nan
  | [] => rfl
  | x :: xs => by
      have h : jsMax .nan x = .nan := by cases x <;> rfl
      rw [List.foldl_cons, h, foldl_jsMax_nan xs]

/-- Folding `jsMax` from a finite value over a list of finite values stays
finite, never decreases, lands on the start or in the list, and bounds
every list element. -/
theorem foldl_jsMax_fin :
    ∀ l : List JsNum, (∀ x ∈ l, ∃ q : ℚ, x = .fin q) →
      ∀ p : ℚ, ∃ r : ℚ,
        l.foldl jsMax (.fin p) = .fin r ∧ p ≤ r ∧
        (r = p ∨ JsNum.fin r ∈ l) ∧
        (∀ x ∈ l, jsLe x (.fin r) = true)
  | [], _, p => ⟨p, rfl, le_refl p, Or.inl rfl, by simp⟩
  | x :: xs, hfin, p => by
      rcases hfin x (List.mem_cons_self x xs) with ⟨q, rfl⟩
      have hstep : jsMax (.fin p) (.fin q) = .fin (max p q) := rfl
      rw [List.foldl_cons, hstep]
      rcases foldl_jsMax_fin xs (fun y hy => hfin y (List.mem_cons_of_mem _ hy))
          (max p q) with ⟨r, hres, hle, hmem, hub⟩
      refine ⟨r, hres, le_trans (le_max_left p q) hle, ?_, ?_⟩
      · rcases hmem with hr | hr
        · rcases max_choice p q with hm | hm
          · exact Or.inl (hr.trans hm)
          · exact Or.inr (by rw [hr, hm]; exact List.mem_cons_self _ xs)
        · exact Or.inr (List.mem_cons_of_mem _ hr)
      · intro y hy
        rcases List.mem_cons.mp hy with rfl | hy'
        · have : q ≤ r := le_trans (le_max_right p q) hle
          simp [jsLe, this]
        · exact hub y hy'

/-- `Math.max` over a non-empty list of finite values is attained in the
list and bounds every element. -/
theorem jsMathMax_spec (l : List JsNum) (hne : l ≠ [])
    (hfin : ∀ x ∈ l, ∃ q : ℚ, x = .fin q) :
    jsMathMax l ∈ l ∧ ∀ x ∈ l, jsLe x (jsMathMax l) = true := by
  cases l with
  | nil => exact absurd rfl hne
  | cons x xs =>
      rcases hfin x (List.mem_cons_self x xs) with ⟨q, rfl⟩
      have hstart : jsMax .negInf (.fin q) = .fin q := rfl
      rw [jsMathMax, List.foldl_cons, hstart]
      rcases foldl_jsMax_fin xs (fun y hy => hfin y (List.mem_cons_of_mem _ hy)) q
        with ⟨r, hres, hle, hmem, hub⟩
      rw [hres]
      refine ⟨?_, ?_⟩
      · rcases hmem with hr | hr
        · exact hr ▸ List.mem_cons_self _ xs
        · exact List.mem_cons_of_mem _ hr
      · intro y hy
        rcases List.mem_cons.mp hy with rfl | hy'
        · simp [jsLe, hle]
        · exact hub y hy'

/-- `indexOf` on an absent name is the `-1` sentinel. -/
theorem jsIndexOf_not_mem (l : List String) (x : String) (h : x ∉ l) :
    jsIndexOf l x = -1 := by
  rw [jsIndexOf]
  have hnone : l.findIdx? (fun c => c == x) = none := by
    rw [List.findIdx?_eq_none_iff]
    intro y hy
    simp only [beq_eq_false_iff_ne, ne_eq]
    exact fun hxy => h (hxy ▸ hy)
  rw [hnone]

/-- Allocation does not disturb live addresses. -/
theorem Store.read_alloc (s : Store) (o : HeapObj) (a : ℕ) (h : a < s.objs.length) :
    (s.alloc o).2.read a = s.read a := by
  simp [Store.alloc, Store.read, List.getElem?_append_left h]

/-- `Preserves` is reflexive. -/
theorem Store.preserves_refl (s : Store) : s.Preserves s :=
  ⟨le_refl _, fun _ _ => rfl⟩

/-- `Preserves` composes. -/
theorem Store.preserves_trans {s s' s'' : Store} (h1 : s.Preserves s')
    (h2 : s'.Preserves s'') : s.Preserves s'' :=
  ⟨le_trans h1.1 h2.1, fun a ha => ((h2.2 a (lt_of_lt_of_le ha h1.1)).trans (h1.2 a ha))⟩

/-- Allocation preserves the store. -/
theorem Store.preserves_alloc (s : Store) (o : HeapObj) : s.Preserves (s.alloc o).2 :=
  ⟨by simp [Store.alloc], fun a ha => s.read_alloc o a ha⟩

/-- Allocating a batch of row arrays preserves the store. -/
theorem Store.preserves_allocRows (s : Store) :
    ∀ rc : List (List Value), s.Preserves (s.allocRows rc).2
  | [] => s.preserves_refl
  | r :: rest => by
      rw [Store.allocRows]
      exact Store.preserves_trans (s.preserves_alloc (.valArr r))
        (Store.preserves_allocRows (s.alloc (.valArr r)).2 rest)

/-- Writing at or above the watermark of an earlier store preserves it. -/
theorem Store.preserves_write_ge {s s1 : Store} (hp : s.Preserves s1) (a : ℕ)
    (ha : s.objs.length ≤ a) (o : HeapObj) : s.Preserves (s1.write a o) := by
  refine ⟨le_trans hp.1 ?_, fun b hb => ?_⟩
  · simp [Store.write]
  · have hne : a ≠ b := fun hab => absurd (hab ▸ hb) (not_lt.mpr ha)
    calc (s1.write a o).read b = s1.read b := by
          simp [Store.write, Store.read, List.getElem?_set_ne hne]
      _ = s.read b := hp.2 b hb

/-- The copying constructor only allocates. -/
theorem TableData.constructSt_preserves (s : Store) (cA rA : ℕ) :
    s.Preserves (TableData.constructSt s cA rA).2 := by
  simp only [TableData.constructSt]
  exact Store.preserves_trans (Store.preserves_trans (s.preserves_alloc _)
    (Store.preserves_allocRows _ _)) (Store.preserves_alloc _ _)

/-- `addColumn` at store level only allocates. -/
theorem TableRef.addColumnSt_preserves (t : TableRef) (s : Store) (name : String)
    (compute : ComputeFn) : s.Preserves (t.addColumnSt s name compute).2 := by
  simp only [TableRef.addColumnSt]
  exact Store.preserves_trans (Store.preserves_trans (Store.preserves_trans
    (s.preserves_alloc _) (Store.preserves_allocRows _ _))
    (Store.preserves_alloc _ _)) (TableData.constructSt_preserves _ _ _)

/-- `sortBy` at store level allocates and writes only to its fresh copy. -/
theorem TableRef.sortBySt_preserves (t : TableRef) (s : Store) (column order : String) :
    s.Preserves (t.sortBySt s column order).2 := by
  simp only [TableRef.sortBySt]
  refine Store.preserves_trans ?_ (TableData.constructSt_preserves _ _ _)
  exact Store.preserves_write_ge (s.preserves_alloc _) _ (le_refl _) _

/-- A preserved store reads a well-formed table's observables identically. -/
theorem TableRef.observables_preserved (t : TableRef) {s s' : Store}
    (hp : s.Preserves s') (hw : TableWfSt t s) :
    t.getColumnsV s' = t.getColumnsV s ∧ t.getRowsV s' = t.getRowsV s := by
  obtain ⟨hc, hr, hrows⟩ := hw
  constructor
  · simp [TableRef.getColumnsV, Store.readStrArr, hp.2 _ hc]
  · have hrefs : s'.readRefArr t.rowsA = s.readRefArr t.rowsA := by
      simp [Store.readRefArr, hp.2 _ hr]
    rw [TableRef.getRowsV, TableRef.getRowsV, hrefs]
    exact List.map_congr_left (fun a ha => by
      simp [Store.readValArr, hp.2 _ (hrows a ha)])

/-- `addColumn` preserves the row-length invariant, growing both sides. -/
theorem TableData.wf_addColumn {t : TableData} (h : t.Wf) (name : String)
    (compute : ComputeFn) : (t.addColumn name compute).Wf := by
  intro row hrow
  simp only [TableData.addColumn, List.mem_map] at hrow
  rcases hrow with ⟨r, hr, rfl⟩
  simp [TableData.addColumn, h r hr]

/-- `sortBy` preserves the row-length invariant. -/
theorem TableData.wf_sortBy {t : TableData} (h : t.Wf) (column order : String) :
    (t.sortBy column order).Wf := by
  intro row hrow
  simp only [TableData.sortBy] at hrow
  have hmem : row ∈ t.rows := (jsSort_perm _ t.rows).mem_iff.mp hrow
  simpa [TableData.sortBy] using h row hmem

/-- C1: for every `App` whose input and output format names resolve and
whose parsed dataset contains a `density` column, `run()` computes
`maxDensity = table.maxBy('density')`, appends a `percent` column valued
`round(densityCell * 100 / maxDensity)`, sorts the resulting table by
`percent` descending, and renders exactly the rows of that final table
(`pipelineSpecTable` states that pipeline in the specification's words). -/
theorem claim1_run_pipeline (app : App) (parserCtor : String → ParserObj)
    (rendererCtor : FormatOptions → RendererObj)
    (hP : app.parsers.lookup app.inputFormat = some parserCtor)
    (hR : app.renderers.lookup app.outputFormat = some rendererCtor)
    (hd : "density" ∈ (parserCtor app.data).getColumns) :
    app.run = Except.ok ((rendererCtor app.formatOptions).render
      (pipelineSpecTable (parserCtor app.data).getColumns
        ((parserCtor app.data).toDatasetArray
          [ParserCsv.cellWithTypes app.dataSchema] [])).getRows) := by
  rw [App.run, hP, hR]
  rfl

/-- Witness for C1 on the demo wiring and a concrete CSV. -/
theorem claim1_run_pipeline_witness :
    demoParsers.lookup "csv" = some ParserCsv.factory ∧
    demoRenderers.lookup "table" = some RendererTable.factory ∧
    "density" ∈ (ParserCsv.factory tinyCsv).getColumns ∧
    tinyApp.run = Except.ok ((RendererTable.factory tinyFormatOptions).render
      (pipelineSpecTable (ParserCsv.factory tinyCsv).getColumns
        ((ParserCsv.factory tinyCsv).toDatasetArray
          [ParserCsv.cellWithTypes tinySchema] [])).getRows) :=
  ⟨rfl, rfl, by decide,
    claim1_run_pipeline tinyApp ParserCsv.factory RendererTable.factory rfl rfl
      (by decide)⟩

/-- C2: `addColumn(name, compute)` appends exactly one column, keeps the
row count, and the `i`-th result row is the `i`-th input row with
`compute(row, pre-append columns, all rows)` appended. -/
theorem claim2_addColumn_spec (t : TableData) (name : String) (compute : ComputeFn) :
    (t.addColumn name compute).getColumns = t.getColumns ++ [name] ∧
    (t.addColumn name compute).getRows.length = t.getRows.length ∧
    ∀ i, i < t.getRows.length →
      (t.addColumn name compute).getRows.getD i [] =
        t.getRows.getD i [] ++
          [compute (t.getRows.getD i []) t.getColumns t.getRows] := by
  refine ⟨rfl, by simp [TableData.addColumn, TableData.getRows], ?_⟩
  intro i hi
  have hi' : i < t.rows.length := hi
  simp [TableData.addColumn, TableData.getRows, TableData.getColumns,
    List.getD_eq_getElem?_getD, List.getElem?_map, List.getElem?_eq_getElem hi']

/-- Witness for C2 on a one-row table. -/
theorem claim2_addColumn_spec_witness :
    0 < (TableData.getRows ⟨["a"], [[Value.str "x"]]⟩).length ∧
    (TableData.addColumn ⟨["a"], [[Value.str "x"]]⟩ "b"
        (fun _ _ _ => Value.num (JsNum.fin 1))).getRows.getD 0 [] =
      (TableData.getRows ⟨["a"], [[Value.str "x"]]⟩).getD 0 [] ++
        [(fun _ _ _ => Value.num (JsNum.fin 1))
          ((TableData.getRows ⟨["a"], [[Value.str "x"]]⟩).getD 0 [])
          (TableData.getColumns ⟨["a"], [[Value.str "x"]]⟩)
          (TableData.getRows ⟨["a"], [[Value.str "x"]]⟩)] :=
  ⟨by decide,
    (claim2_addColumn_spec ⟨["a"], [[Value.str "x"]]⟩ "b"
      (fun _ _ _ => Value.num (JsNum.fin 1))).2.2 0 (by decide)⟩

/-- C5: producing a derived table by `addColumn` or `sortBy` leaves the
original table's observable `getColumns()`/`getRows()` values unchanged,
at the store level where array mutation is real. -/
theorem claim5_immutability (s : Store) (t : TableRef) (hw : TableWfSt t s)
    (name : String) (compute : ComputeFn) (column order : String) :
    (t.getColumnsV (t.addColumnSt s name compute).2 = t.getColumnsV s ∧
     t.getRowsV (t.addColumnSt s name compute).2 = t.getRowsV s) ∧
    (t.getColumnsV (t.sortBySt s column order).2 = t.getColumnsV s ∧
     t.getRowsV (t.sortBySt s column order).2 = t.getRowsV s) :=
  ⟨⟨(t.observables_preserved (t.addColumnSt_preserves s name compute) hw).1,
    (t.observables_preserved (t.addColumnSt_preserves s name compute) hw).2⟩,
   ⟨(t.observables_preserved (t.sortBySt_preserves s column order) hw).1,
    (t.observables_preserved (t.sortBySt_preserves s column order) hw).2⟩⟩

/-- Witness for C5 on a concrete one-row store. -/
theorem claim5_immutability_witness :
    TableWfSt tinyTableRef tinyStore ∧
    (tinyTableRef.getRowsV
        (tinyTableRef.addColumnSt tinyStore "b" (fun _ _ _ => Value.undefined)).2 =
      tinyTableRef.getRowsV tinyStore) ∧
    (tinyTableRef.getRowsV (tinyTableRef.sortBySt tinyStore "a" "asc").2 =
      tinyTableRef.getRowsV tinyStore) :=
  ⟨by constructor
      · decide
      · constructor
        · decide
        · decide,
   ((claim5_immutability tinyStore tinyTableRef
      ⟨by decide, by decide, by decide⟩ "b" (fun _ _ _ => Value.undefined) "a" "asc").1).2,
   ((claim5_immutability tinyStore tinyTableRef
      ⟨by decide, by decide, by decide⟩ "b" (fun _ _ _ => Value.undefined) "a" "asc").2).2⟩

/-- C6: with an unregistered input format name, `run()` throws an error
naming the format and its role (input), and produces no render output;
with the input format registered but the output format unregistered, the
error names the format and its role (output), and again no output is
produced. -/
theorem claim6_unknown_format (app : App) :
    (app.parsers.lookup app.inputFormat = none →
      app.run = Except.error
          ("No parser registered for input format: \"" ++ app.inputFormat ++ "\"") ∧
      ∀ out, app.run ≠ Except.ok out) ∧
    (∀ parserCtor, app.parsers.lookup app.inputFormat = some parserCtor →
      app.renderers.lookup app.outputFormat = none →
      app.run = Except.error
          ("No renderer registered for output format: \"" ++ app.outputFormat ++ "\"") ∧
      ∀ out, app.run ≠ Except.ok out) := by
  constructor
  · intro h
    have he : app.run = Except.error
        ("No parser registered for input format: \"" ++ app.inputFormat ++ "\"") := by
      rw [App.run, h]
    exact ⟨he, fun out hok => by rw [he] at hok; exact Except.noConfusion hok⟩
  · intro parserCtor hP hR
    have he : app.run = Except.error
        ("No renderer registered for output format: \"" ++ app.outputFormat ++ "\"") := by
      rw [App.run, hP, hR]
    exact ⟨he, fun out hok => by rw [he] at hok; exact Except.noConfusion hok⟩

/-- Witness for C6: the scenario `run()` with unregistered input format
`"xml"`. -/
theorem claim6_unknown_format_witness :
    demoParsers.lookup "xml" = none ∧
    xmlApp.run = Except.error "No parser registered for input format: \"xml\"" ∧
    ∀ out, xmlApp.run ≠ Except.ok out :=
  ⟨rfl, ((claim6_unknown_format xmlApp).1 rfl).1,
    ((claim6_unknown_format xmlApp).1 rfl).2⟩

/-- C7: a table built with all row lengths equal to the column count keeps
that invariant under any sequence of `addColumn` and `sortBy` operations
(the column count possibly growing). -/
theorem claim7_row_length_invariant (t : TableData) (ops : List TableOp)
    (h : t.Wf) : (applyOps t ops).Wf := by
  induction ops generalizing t with
  | nil => exact h
  | cons op rest ih =>
      cases op with
      | addCol n f => exact ih _ (TableData.wf_addColumn h n f)
      | sortOp c o => exact ih _ (TableData.wf_sortBy h c o)

/-- Witness for C7 on a one-row table and a two-operation sequence. -/
theorem claim7_row_length_invariant_witness :
    TableData.Wf ⟨["a"], [[Value.str "x"]]⟩ ∧
    (applyOps ⟨["a"], [[Value.str "x"]]⟩
      [TableOp.addCol "b" (fun _ _ _ => Value.undefined),
       TableOp.sortOp "b" "desc"]).Wf := by
  have hwf : TableData.Wf ⟨["a"], [[Value.str "x"]]⟩ := by
    intro row hrow
    obtain rfl := List.mem_singleton.mp hrow
    rfl
  exact ⟨hwf, claim7_row_length_invariant _ _ hwf⟩

/-- C8: the specification's schema-casting scenario: CSV `"a,b\n1,2\n3,4"`
with schema `b ↦ Number` parses to columns `['a','b']` and rows
`[['1',2],['3',4]]` — the mapped column is cast, the unmapped one passes
through as a string. -/
theorem claim8_schema_casting :
    (ParserCsv.construct "a,b\n1,2\n3,4" '\n' ',').getColumns = ["a", "b"] ∧
    (ParserCsv.construct "a,b\n1,2\n3,4" '\n' ',').toDatasetArray
        [ParserCsv.cellWithTypes schemaBNum] [] =
      [[Value.str "1", Value.num (JsNum.fin 2)],
       [Value.str "3", Value.num (JsNum.fin 4)]] := by
  constructor
  · decide
  · decide

/-- C9: `maxBy` over a table with zero rows evaluates to `-Infinity`
(the native `Math.max()` of an empty spread) instead of failing. -/
theorem claim9_maxBy_empty (columns : List String) (column : String)
    (h : column ∈ columns) :
    TableData.maxBy ⟨columns, []⟩ column = JsNum.negInf := rfl

/-- Witness for C9. -/
theorem claim9_maxBy_empty_witness :
    "density" ∈ ["city", "density"] ∧
    TableData.maxBy ⟨["city", "density"], []⟩ "density" = JsNum.negInf :=
  ⟨by decide, claim9_maxBy_empty ["city", "density"] "density" (by decide)⟩

/-- C10: `maxBy` on a non-empty table and a column name absent from the
column set returns `NaN`: the `-1` index sentinel makes every cell read
`undefined`, `Number(undefined)` is `NaN`, and `Math.max` absorbs it. -/
theorem claim10_maxBy_missing_column (columns : List String)
    (rows : List (List Value)) (column : String)
    (hne : rows ≠ []) (habs : column ∉ columns) :
    TableData.maxBy ⟨columns, rows⟩ column = JsNum.nan := by
  have hidx : jsIndexOf columns column = -1 := jsIndexOf_not_mem columns column habs
  simp only [TableData.maxBy, TableData.indexOf, hidx]
  have hget : ∀ row : List Value, toNumber (jsGet row (-1)) = JsNum.nan := by
    intro row
    rw [jsGet, if_neg (by norm_num)]
    rfl
  have hmap : rows.map (fun row => toNumber (jsGet row (-1))) =
      rows.map (fun _ => JsNum.nan) :=
    List.map_congr_left (fun r _ => hget r)
  rw [hmap]
  cases rows with
  | nil => exact absurd rfl hne
  | cons r rest =>
      rw [List.map_cons, jsMathMax, List.foldl_cons]
      have hstep : jsMax .negInf .nan = .nan := rfl
      rw [hstep, foldl_jsMax_nan]

/-- Witness for C10. -/
theorem claim10_maxBy_missing_column_witness :
    ([[Value.str "x"]] : List (List Value)) ≠ [] ∧ "b" ∉ ["a"] ∧
    TableData.maxBy ⟨["a"], [[Value.str "x"]]⟩ "b" = JsNum.nan :=
  ⟨by decide, by decide,
    claim10_maxBy_missing_column ["a"] [[Value.str "x"]] "b" (by decide) (by decide)⟩

/-- The swap test of the comparator on two finite values: `a` may stay
before `b` iff the subtraction is not positive. -/
theorem not_jsPos_sub_fin (qa qb : ℚ) :
    ((!(jsPos (jsSub (JsNum.fin qb) (JsNum.fin qa)))) = true) ↔ qb ≤ qa := by
  have h1 : jsSub (JsNum.fin qb) (JsNum.fin qa) = JsNum.fin (qb - qa) := rfl
  rw [h1]
  simp [jsPos, sub_nonpos]

/-- Characterisation of the sort relation on rows whose cells at the
column index coerce to finite values. -/
theorem sortLe_char (idx : Int) (order : String) (a b : List Value) (qa qb : ℚ)
    (ha : toNumber (jsGet a idx) = JsNum.fin qa)
    (hb : toNumber (jsGet b idx) = JsNum.fin qb) :
    (jsSortLe (TableData.sortCompare idx order) a b = true) ↔
      (if order = "desc" then qb ≤ qa else qa ≤ qb) := by
  by_cases ho : order = "desc"
  · rw [if_pos ho, jsSortLe, TableData.sortCompare, if_pos ho, ha, hb]
    exact not_jsPos_sub_fin qa qb
  · rw [if_neg ho, jsSortLe, TableData.sortCompare, if_neg ho, ha, hb]
    exact not_jsPos_sub_fin qb qa

/-- C3: on a table whose cells at the column's index are numeric,
`sortBy(col,'desc')` returns rows pairwise non-increasing by the numeric
value at the index, any other order returns them pairwise non-decreasing,
and in both cases the result is a permutation of the input rows. -/
theorem claim3_sortBy_correct (t : TableData) (column : String) (order : String)
    (hnum : ∀ row ∈ t.rows, ∃ q : ℚ,
      toNumber (jsGet row (t.indexOf column)) = JsNum.fin q) :
    (order = "desc" →
      (t.sortBy column order).getRows.Pairwise (fun a b =>
        jsLe (toNumber (jsGet b (t.indexOf column)))
          (toNumber (jsGet a (t.indexOf column))) = true)) ∧
    (order ≠ "desc" →
      (t.sortBy column order).getRows.Pairwise (fun a b =>
        jsLe (toNumber (jsGet a (t.indexOf column)))
          (toNumber (jsGet b (t.indexOf column))) = true)) ∧
    ((t.sortBy column order).getRows).Perm t.getRows := by
  have hrows : (t.sortBy column order).getRows =
      jsSort (jsSortLe (TableData.sortCompare (t.indexOf column) order)) t.rows := rfl
  have hto : ∀ a ∈ t.rows, ∀ b ∈ t.rows,
      jsSortLe (TableData.sortCompare (t.indexOf column) order) a b = true ∨
        jsSortLe (TableData.sortCompare (t.indexOf column) order) b a = true := by
    intro a ha b hb
    rcases hnum a ha with ⟨qa, hqa⟩
    rcases hnum b hb with ⟨qb, hqb⟩
    by_cases ho : order = "desc"
    · rcases le_total qb qa with h | h
      · left
        rw [sortLe_char _ _ _ _ qa qb hqa hqb, if_pos ho]
        exact h
      · right
        rw [sortLe_char _ _ _ _ qb qa hqb hqa, if_pos ho]
        exact h
    · rcases le_total qa qb with h | h
      · left
        rw [sortLe_char _ _ _ _ qa qb hqa hqb, if_neg ho]
        exact h
      · right
        rw [sortLe_char _ _ _ _ qb qa hqb hqa, if_neg ho]
        exact h
  have htr : ∀ a b c, a ∈ t.rows → b ∈ t.rows → c ∈ t.rows →
      jsSortLe (TableData.sortCompare (t.indexOf column) order) a b = true →
      jsSortLe (TableData.sortCompare (t.indexOf column) order) b c = true →
      jsSortLe (TableData.sortCompare (t.indexOf column) order) a c = true := by
    intro a b c ha hb hc hab hbc
    rcases hnum a ha with ⟨qa, hqa⟩
    rcases hnum b hb with ⟨qb, hqb⟩
    rcases hnum c hc with ⟨qc, hqc⟩
    by_cases ho : order = "desc"
    · rw [sortLe_char _ _ _ _ qa qb hqa hqb, if_pos ho] at hab
      rw [sortLe_char _ _ _ _ qb qc hqb hqc, if_pos ho] at hbc
      rw [sortLe_char _ _ _ _ qa qc hqa hqc, if_pos ho]
      exact le_trans hbc hab
    · rw [sortLe_char _ _ _ _ qa qb hqa hqb, if_neg ho] at hab
      rw [sortLe_char _ _ _ _ qb qc hqb hqc, if_neg ho] at hbc
      rw [sortLe_char _ _ _ _ qa qc hqa hqc, if_neg ho]
      exact le_trans hab hbc
  have hpw := pairwise_jsSort
    (jsSortLe (TableData.sortCompare (t.indexOf column) order)) t.rows hto htr
  refine ⟨?_, ?_, ?_⟩
  · intro ho
    rw [hrows]
    refine List.Pairwise.imp_of_mem ?_ hpw
    intro a b hamem hbmem hab
    have ha := (jsSort_perm _ t.rows).mem_iff.mp hamem
    have hb := (jsSort_perm _ t.rows).mem_iff.mp hbmem
    rcases hnum a ha with ⟨qa, hqa⟩
    rcases hnum b hb with ⟨qb, hqb⟩
    rw [sortLe_char _ _ _ _ qa qb hqa hqb, if_pos ho] at hab
    rw [hqa, hqb]
    simp [jsLe, hab]
  · intro ho
    rw [hrows]
    refine List.Pairwise.imp_of_mem ?_ hpw
    intro a b hamem hbmem hab
    have ha := (jsSort_perm _ t.rows).mem_iff.mp hamem
    have hb := (jsSort_perm _ t.rows).mem_iff.mp hbmem
    rcases hnum a ha with ⟨qa, hqa⟩
    rcases hnum b hb with ⟨qb, hqb⟩
    rw [sortLe_char _ _ _ _ qa qb hqa hqb, if_neg ho] at hab
    rw [hqa, hqb]
    simp [jsLe, hab]
  · rw [hrows]
    exact jsSort_perm _ t.rows

/-- Witness for C3 on the scenario table, descending order. -/
theorem claim3_sortBy_correct_witness :
    (∀ row ∈ scenTable.rows, ∃ q : ℚ,
      toNumber (jsGet row (scenTable.indexOf "density")) = JsNum.fin q) ∧
    ((scenTable.sortBy "density" "desc").getRows.Pairwise (fun a b =>
      jsLe (toNumber (jsGet b (scenTable.indexOf "density")))
        (toNumber (jsGet a (scenTable.indexOf "density"))) = true)) ∧
    ((scenTable.sortBy "density" "desc").getRows).Perm scenTable.getRows := by
  have hnum : ∀ row ∈ scenTable.rows, ∃ q : ℚ,
      toNumber (jsGet row (scenTable.indexOf "density")) = JsNum.fin q := by
    intro row hrow
    rcases List.mem_cons.mp hrow with rfl | hrow
    · exact ⟨100, by decide⟩
    rcases List.mem_cons.mp hrow with rfl | hrow
    · exact ⟨400, by decide⟩
    rcases List.mem_cons.mp hrow with rfl | hrow
    · exact ⟨200, by decide⟩
    exact absurd hrow (List.not_mem_nil row)
  exact ⟨hnum,
    (claim3_sortBy_correct scenTable "density" "desc" hnum).1 rfl,
    (claim3_sortBy_correct scenTable "density" "desc" hnum).2.2⟩

/-- C4: on a non-empty table whose cells at the (present) column's index
coerce to finite numbers, `maxBy(col)` equals the true maximum of those
coercions: it is attained at some row and bounds every row's value. -/
theorem claim4_maxBy_correct (t : TableData) (column : String)
    (hne : t.rows ≠ [])
    (hcol : column ∈ t.columns)
    (hnum : ∀ row ∈ t.rows, ∃ q : ℚ,
      toNumber (jsGet row (t.indexOf column)) = JsNum.fin q) :
    (∃ row ∈ t.rows,
      t.maxBy column = toNumber (jsGet row (t.indexOf column))) ∧
    (∀ row ∈ t.rows,
      jsLe (toNumber (jsGet row (t.indexOf column))) (t.maxBy column) = true) := by
  have hmb : t.maxBy column =
      jsMathMax (t.rows.map (fun row => toNumber (jsGet row (t.indexOf column)))) := rfl
  have hne' : t.rows.map (fun row => toNumber (jsGet row (t.indexOf column))) ≠ [] := by
    intro hmap
    exact hne (List.map_eq_nil_iff.mp hmap)
  have hfin : ∀ x ∈ t.rows.map (fun row => toNumber (jsGet row (t.indexOf column))),
      ∃ q : ℚ, x = JsNum.fin q := by
    intro x hx
    rcases List.mem_map.mp hx with ⟨r, hr, rfl⟩
    exact hnum r hr
  rcases jsMathMax_spec _ hne' hfin with ⟨hmem, hub⟩
  constructor
  · rcases List.mem_map.mp hmem with ⟨r, hr, hEq⟩
    exact ⟨r, hr, by rw [hmb, ← hEq]⟩
  · intro r hr
    rw [hmb]
    exact hub _ (List.mem_map_of_mem _ hr)

/-- Witness for C4 on the scenario table. -/
theorem claim4_maxBy_correct_witness :
    scenTable.rows ≠ [] ∧ "density" ∈ scenTable.columns ∧
    (∃ row ∈ scenTable.rows,
      scenTable.maxBy "density" =
        toNumber (jsGet row (scenTable.indexOf "density"))) ∧
    (∀ row ∈ scenTable.rows,
      jsLe (toNumber (jsGet row (scenTable.indexOf "density")))
        (scenTable.maxBy "density") = true) := by
  have hnum : ∀ row ∈ scenTable.rows, ∃ q : ℚ,
      toNumber (jsGet row (scenTable.indexOf "density")) = JsNum.fin q := by
    intro row hrow
    rcases List.mem_cons.mp hrow with rfl | hrow
    · exact ⟨100, by decide⟩
    rcases List.mem_cons.mp hrow with rfl | hrow
    · exact ⟨400, by decide⟩
    rcases List.mem_cons.mp hrow with rfl | hrow
    · exact ⟨200, by decide⟩
    exact absurd hrow (List.not_mem_nil row)
  exact ⟨by decide, by decide,
    (claim4_maxBy_correct scenTable "density" (by decide) (by decide) hnum).1,
    (claim4_maxBy_correct scenTable "density" (by decide) (by decide) hnum).2⟩
